import Mathlib

/-!
Verification development for the movie recommendation notebook
(`terapanfix.py` / `terapan2_notebook.py`).

The notebook builds two recommendation paths over a movie/ratings corpus:

* a content path: merge ratings with movies, deduplicate per `movieId`,
  derive `movie_label` and `content_features`, vectorize the features with
  `TfidfVectorizer()`, take all-pairs cosine similarity, and expose
  `content_based_movie_recommendations`;
* a collaborative path: derive `film_id` / `movie_label` integer
  encodings, min-max normalize ratings, and train `RecommenderNet`
  (embeddings + biases + dropout + sigmoid), exposing
  `recommend_movies_based_on_title`.

Each definition below embeds the corresponding notebook fragment.
Pandas/sklearn/keras primitives used by the notebook are embedded with
their documented default semantics: `pd.merge(df_rat, df_mov)` is an
inner join preserving the order of the left (ratings) frame,
`drop_duplicates('movieId')` keeps the first occurrence,
`Series.unique()` keeps first-seen order, `Series.sort_values` is
modelled as a stable sort (tie order of the underlying quicksort is
unspecified; the stable model matches the spec's reading),
`TfidfVectorizer()` lowercases and tokenizes with the default token
pattern (maximal runs of at least two word characters), uses smooth idf
`log((1+N)/(1+df)) + 1` and L2-normalizes rows, and `layers.Dropout` is
active only when the training flag is set.  Real-valued float
computations are idealized over `ℝ`; rating arithmetic over `ℚ`.
-/

/-! ## Generic list helpers -/

/-- Maximal runs of characters satisfying `keep`; separator characters are
dropped.  `acc` holds the current run, reversed. -/
def charRunsAux (keep : Char → Bool) : List Char → List Char → List (List Char)
  | [], acc => if acc.isEmpty then [] else [acc.reverse]
  | c :: cs, acc =>
    if keep c then charRunsAux keep cs (c :: acc)
    else if acc.isEmpty then charRunsAux keep cs [] else acc.reverse :: charRunsAux keep cs []

/-- Maximal runs of characters satisfying `keep`; separator characters are
dropped.  Used both for the sklearn token pattern (runs of word
characters) and for whitespace splitting. -/
def charRuns (keep : Char → Bool) (l : List Char) : List (List Char) :=
  charRunsAux keep l []

/-- First-seen-order deduplication, the semantics of pandas
`Series.unique()`.  `seen` accumulates values already emitted. -/
def pdUniqueAux [DecidableEq α] : List α → List α → List α
  | [], _ => []
  | x :: xs, seen => if x ∈ seen then pdUniqueAux xs seen else x :: pdUniqueAux xs (x :: seen)

/-- pandas `Series.unique()`: the distinct values in first-seen order. -/
def pdUnique [DecidableEq α] (l : List α) : List α := pdUniqueAux l []

theorem mem_pdUniqueAux [DecidableEq α] (l : List α) :
    ∀ seen x, x ∈ pdUniqueAux l seen ↔ x ∈ l ∧ x ∉ seen := by
  induction l with
  | nil => intro seen x; simp [pdUniqueAux]
  | cons a as ih =>
    intro seen x
    by_cases ha : a ∈ seen
    · rw [pdUniqueAux, if_pos ha, ih]
      constructor
      · rintro ⟨h1, h2⟩; exact ⟨List.mem_cons_of_mem a h1, h2⟩
      · rintro ⟨h1, h2⟩
        rcases List.mem_cons.mp h1 with rfl | h1
        · exact absurd ha h2
        · exact ⟨h1, h2⟩
    · rw [pdUniqueAux, if_neg ha]
      constructor
      · intro h
        rcases List.mem_cons.mp h with rfl | h
        · exact ⟨List.mem_cons_self _ _, ha⟩
        · obtain ⟨h1, h2⟩ := (ih (a :: seen) x).mp h
          exact ⟨List.mem_cons_of_mem a h1, fun hx => h2 (List.mem_cons_of_mem a hx)⟩
      · rintro ⟨h1, h2⟩
        rcases List.mem_cons.mp h1 with rfl | h1
        · exact List.mem_cons_self _ _
        · by_cases hxa : x = a
          · exact hxa ▸ List.mem_cons_self _ _
          · exact List.mem_cons_of_mem a
              ((ih (a :: seen) x).mpr ⟨h1, fun hx => (List.mem_cons.mp hx).elim hxa h2⟩)

theorem mem_pdUnique [DecidableEq α] {l : List α} {x : α} :
    x ∈ pdUnique l ↔ x ∈ l := by
  rw [pdUnique, mem_pdUniqueAux]; simp

theorem nodup_pdUniqueAux [DecidableEq α] (l : List α) :
    ∀ seen, (pdUniqueAux l seen).Nodup := by
  induction l with
  | nil => intro seen; simp [pdUniqueAux]
  | cons a as ih =>
    intro seen
    by_cases ha : a ∈ seen
    · rw [pdUniqueAux, if_pos ha]; exact ih seen
    · rw [pdUniqueAux, if_neg ha]
      refine List.Nodup.cons ?_ (ih (a :: seen))
      intro hmem
      exact ((mem_pdUniqueAux as (a :: seen) a).mp hmem).2 (List.mem_cons_self a seen)

theorem nodup_pdUnique [DecidableEq α] (l : List α) : (pdUnique l).Nodup :=
  nodup_pdUniqueAux l []

theorem pdUniqueAux_eq_self [DecidableEq α] (l : List α) :
    ∀ seen, l.Nodup → (∀ x ∈ l, x ∉ seen) → pdUniqueAux l seen = l := by
  induction l with
  | nil => intro seen _ _; rfl
  | cons a as ih =>
    intro seen hnd hsn
    rw [pdUniqueAux, if_neg (hsn a (List.mem_cons_self a as))]
    congr 1
    refine ih (a :: seen) (List.Nodup.of_cons hnd) ?_
    intro x hx
    intro hmem
    rcases List.mem_cons.mp hmem with rfl | h
    · exact (List.nodup_cons.mp hnd).1 hx
    · exact hsn x (List.mem_cons_of_mem _ hx) h

theorem pdUnique_eq_self [DecidableEq α] {l : List α} (h : l.Nodup) : pdUnique l = l :=
  pdUniqueAux_eq_self l [] h (by simp)

theorem pdUniqueAux_sublist [DecidableEq α] (l : List α) :
    ∀ seen, List.Sublist (pdUniqueAux l seen) l := by
  induction l with
  | nil => intro seen; simp [pdUniqueAux]
  | cons a as ih =>
    intro seen
    by_cases ha : a ∈ seen
    · rw [pdUniqueAux, if_pos ha]
      exact (ih seen).trans (List.sublist_cons_self a as)
    · rw [pdUniqueAux, if_neg ha]
      exact (ih (a :: seen)).cons₂ a

theorem pdUnique_sublist [DecidableEq α] (l : List α) : List.Sublist (pdUnique l) l :=
  pdUniqueAux_sublist l []

/-- Python dict comprehension `{x : i for i, x in enumerate(l)}` looked up
at `x`, with indices starting at `start`; a duplicated key keeps the last
index, as a Python dict would. -/
def encodeDictAux [DecidableEq α] : List α → Nat → α → Option Nat
  | [], _, _ => none
  | a :: as, start, x =>
    match encodeDictAux as (start + 1) x with
    | some j => some j
    | none => if a = x then some start else none

/-- Lookup in the dict `{x : i for i, x in enumerate(l)}`. -/
def encodeDict [DecidableEq α] (l : List α) (x : α) : Option Nat := encodeDictAux l 0 x

/-- Lookup in the dict `{i : x for i, x in enumerate(l)}`. -/
def decodeDict (l : List α) (i : Nat) : Option α := l[i]?

theorem encodeDictAux_eq_none [DecidableEq α] (l : List α) :
    ∀ start (x : α), x ∉ l → encodeDictAux l start x = none := by
  induction l with
  | nil => intro start x _; rfl
  | cons a as ih =>
    intro start x hx
    have h1 : x ∉ as := fun h => hx (List.mem_cons_of_mem _ h)
    have h2 : ¬ (a = x) := fun h => hx (List.mem_cons.mpr (Or.inl h.symm))
    rw [encodeDictAux, ih (start + 1) x h1]
    simp [h2]

theorem encodeDictAux_spec [DecidableEq α] (l : List α) :
    ∀ start (x : α), l.Nodup → x ∈ l →
      ∃ j, encodeDictAux l start x = some j ∧ start ≤ j ∧ l[j - start]? = some x := by
  induction l with
  | nil => intro _ x _ hx; exact absurd hx (List.not_mem_nil x)
  | cons a as ih =>
    intro start x hnd hx
    rcases List.mem_cons.mp hx with rfl | hmem
    · have hnot : x ∉ as := (List.nodup_cons.mp hnd).1
      refine ⟨start, ?_, le_refl _, ?_⟩
      · rw [encodeDictAux, encodeDictAux_eq_none as (start + 1) x hnot]
        simp
      · simp
    · obtain ⟨j, hj, hle, hget⟩ := ih (start + 1) x (List.Nodup.of_cons hnd) hmem
      refine ⟨j, ?_, le_trans (Nat.le_succ start) hle, ?_⟩
      · rw [encodeDictAux, hj]
      · have h1 : j - start = (j - (start + 1)) + 1 := by omega
        rw [h1]
        simpa using hget

theorem encodeDict_decodeDict [DecidableEq α] {l : List α} (hnd : l.Nodup) {x : α}
    (hx : x ∈ l) : ∃ j, encodeDict l x = some j ∧ decodeDict l j = some x := by
  obtain ⟨j, hj, _, hget⟩ := encodeDictAux_spec l 0 x hnd hx
  exact ⟨j, hj, by simpa using hget⟩

theorem decodeDict_lt_length {l : List α} {i : Nat} {x : α}
    (hx : decodeDict l i = some x) : i < l.length := by
  by_contra hge
  rw [decodeDict, List.getElem?_eq_none (Nat.le_of_not_lt hge)] at hx
  exact Option.noConfusion hx

theorem encodeDict_getElem [DecidableEq α] {l : List α} (hnd : l.Nodup) {i : Nat}
    (hi : i < l.length) : encodeDict l l[i] = some i := by
  obtain ⟨j, hj, hget⟩ := encodeDict_decodeDict hnd (List.getElem_mem hi)
  have hjlt : j < l.length := decodeDict_lt_length hget
  rw [decodeDict, List.getElem?_eq_getElem hjlt] at hget
  have hji : j = i := (List.Nodup.getElem_inj_iff hnd).mp (Option.some_injective _ hget)
  exact hji ▸ hj

theorem map_filter_comp (f : α → β) (p : β → Bool) (l : List α) :
    (l.filter (fun a => p (f a))).map f = (l.map f).filter p := by
  induction l with
  | nil => rfl
  | cons a as ih =>
    by_cases h : p (f a) <;> simp [List.filter_cons, h, ih]

/-! ## Tokenization

The notebook vectorizes `content_features` with `TfidfVectorizer()` —
all defaults.  The default analyzer lowercases the text and extracts
tokens with the pattern `(?u)\b\w\w+\b`: maximal runs of word characters
(letters, digits, underscore) of length at least two.  Hyphenated genres
such as `Sci-Fi` therefore split into two tokens, and one-character
tokens are dropped.  The spec instead describes plain whitespace
splitting; `spec_tokenize` models the spec's words for comparison. -/

/-- Word character for the sklearn default token pattern `\w`. -/
def isWordChar (c : Char) : Bool := c.isAlphanum || c = '_'

/-- Character-wise lowercasing, the semantics of Python `str.lower()` on
the ASCII data in this corpus. -/
def strLower (s : String) : String := String.mk (s.data.map Char.toLower)

/-- sklearn `TfidfVectorizer()` default analyzer: lowercase, then take
maximal runs of word characters of length at least 2. -/
def tokenize (s : String) : List String :=
  ((charRuns isWordChar (s.data.map Char.toLower)).filter (fun r => 2 ≤ r.length)).map
    (fun r => String.mk r)

/-- Modelled from the spec: "Tokens are produced by simple whitespace
splitting of the feature string". -/
def spec_tokenize (s : String) : List String :=
  (charRuns (fun c => c ≠ ' ') s.data).map (fun r => String.mk r)

/-! ## Catalog normalization (merge + dedup), src/terapanfix.py lines 403 and 486 -/

/-- Row of `movies.csv` (`df_mov`): `movieId`, `title`, `genres`. -/
structure MovieRow where
  movieId : Nat
  title : String
  genres : String
deriving DecidableEq, Repr

/-- Row of `ratings.csv` (`df_rat`): `userId`, `movieId`, `rating`,
`timestamp`. -/
structure RatingRow where
  userId : Nat
  movieId : Nat
  rating : ℚ
  timestamp : Nat
deriving DecidableEq, Repr

/-- `df_merged = pd.merge(df_rat, df_mov, on='movieId')`: inner join; each
rating row is paired with every movie row carrying its `movieId`, in the
order of the ratings frame (pandas keeps the left frame's key order for an
inner merge). -/
def df_merged (df_rat : List RatingRow) (df_mov : List MovieRow) :
    List (RatingRow × MovieRow) :=
  df_rat.flatMap (fun r => (df_mov.filter (fun m => m.movieId == r.movieId)).map (fun m => (r, m)))

/-- One row of `dataset_content`: the columns the notebook keeps after the
merge (`movieId`, `title`, `genres`, `rating`). -/
structure ContentRecord where
  movieId : Nat
  title : String
  genres : String
  rating : ℚ
deriving DecidableEq, Repr

/-- `drop_duplicates('movieId')`: keep the first merged row for each
`movieId`. -/
def dropDupMovieId : List (RatingRow × MovieRow) → List Nat → List (RatingRow × MovieRow)
  | [], _ => []
  | p :: ps, seen =>
    if p.1.movieId ∈ seen then dropDupMovieId ps seen
    else p :: dropDupMovieId ps (p.1.movieId :: seen)

/-- `dataset_content = df_merged[...].drop_duplicates('movieId')`
(src/terapanfix.py line 486): one row per distinct `movieId`, carrying the
rating of the first merged (= first ratings-frame) row for that movie. -/
def dataset_content (df_rat : List RatingRow) (df_mov : List MovieRow) :
    List ContentRecord :=
  (dropDupMovieId (df_merged df_rat df_mov) []).map
    (fun p => ⟨p.2.movieId, p.2.title, p.2.genres, p.1.rating⟩)

/-- Mean of a movie's historical ratings, the aggregate the spec attaches
to each normalized record. -/
def meanRating (df_rat : List RatingRow) (id : Nat) : ℚ :=
  let rs := (df_rat.filter (fun r => r.movieId == id)).map (fun r => r.rating)
  rs.sum / rs.length

/-! ## Rating normalization, src/terapanfix.py lines 931–933 and 1001–1002 -/

/-- `min_popularity = min(dataset_filter["rating"])`. -/
def min_popularity (ratings : List ℚ) : ℚ := ratings.foldl min (ratings.headD 0)

/-- `max_popularity = max(dataset_filter["rating"])`. -/
def max_popularity (ratings : List ℚ) : ℚ := ratings.foldl max (ratings.headD 0)

/-- The lambda in
`y = collaborative_based["rating"].apply(lambda x: (x - min_popularity) / (max_popularity - min_popularity))`.
There is no guard: when `min = max` the float code divides by zero and
yields NaN; over `ℚ` the junk value is `0` by the `x / 0 = 0` convention.
Either way a value is produced and no failure is signalled — the
function is total. -/
def normalizeRating (x lo hi : ℚ) : ℚ := (x - lo) / (hi - lo)

/-- The full `y` vector of normalized ratings. -/
def yVector (ratings : List ℚ) : List ℚ :=
  ratings.map (fun x => normalizeRating x (min_popularity ratings) (max_popularity ratings))

/-! ## Content-based recommendation query, src/terapanfix.py lines 1217–1230 -/

/-- Row of `content_based_data`: `title`, `movie_label`,
`content_features`. -/
structure ContentRow where
  title : String
  movie_label : String
  content_features : String
deriving DecidableEq, Repr

/-- Value returned by `content_based_movie_recommendations`: the Python
function returns either a plain message string (title not found) or a
DataFrame of recommended rows. -/
inductive ContentResult where
  | message (s : String)
  | results (rows : List ContentRow)
deriving DecidableEq, Repr

/-- Descending-by-similarity comparison on the entries of a similarity
column (`movie_label`, value). -/
def simGe (p q : String × ℚ) : Prop := q.2 ≤ p.2

instance : DecidableRel simGe := fun p q => (inferInstance : Decidable (q.2 ≤ p.2))

instance : IsTotal (String × ℚ) simGe := ⟨fun a b => le_total b.2 a.2⟩

instance : IsTrans (String × ℚ) simGe := ⟨fun _ _ _ h1 h2 => le_trans h2 h1⟩

/-- `sim_scores = similarity_data[movie_label].sort_values(ascending=False)`:
the similarity column sorted by descending value.  pandas sorts with
quicksort, whose tie order is unspecified; following the spec's stable
reading, ties keep original (catalog) order, which insertion sort
guarantees. -/
def sort_values_desc (col : List (String × ℚ)) : List (String × ℚ) :=
  col.insertionSort simGe

/-- `top_indices = sim_scores.iloc[1:k+1].index`: the labels at sorted
positions 1..k (position 0 is dropped). -/
def top_indices (col : List (String × ℚ)) (k : Nat) : List String :=
  (((sort_values_desc col).drop 1).take k).map Prod.fst

/-- Embedding of `content_based_movie_recommendations(title, similarity_data, items, k)`
(src/terapanfix.py lines 1217–1230).  `similarity_data` gives, for a
column label, the similarity column as a list of (row label, value) pairs
in catalog order — exactly the information of `cosine_sim_df[movie_label]`.
The hit branch returns `items[items["movie_label"].isin(top_indices)]`,
i.e. the matching rows in `items` (catalog) order. -/
def content_based_movie_recommendations (title : String)
    (similarity_data : String → List (String × ℚ)) (items : List ContentRow)
    (k : Nat) : ContentResult :=
  match items.filter (fun m => decide (strLower m.title = strLower title)) with
  | [] => .message ("Judul \x27" ++ title ++ "\x27 tidak ditemukan dalam dataset.")
  | m :: _ =>
    .results (items.filter (fun r => decide (r.movie_label ∈ top_indices (similarity_data m.movie_label) k)))

/-! ## Collaborative query miss path, src/terapanfix.py lines 1503–1506 -/

/-- Observable outcome of one call of `recommend_movies_based_on_title`:
the lines it prints and its return value.  The Python function has no
`return expr` on any path, so the returned value is always `None`
(here: `none`). -/
structure CollabCall where
  printed : List String
  returned : Option Unit
deriving DecidableEq, Repr

/-- Embedding of `recommend_movies_based_on_title(movie_label, top_n)`
(src/terapanfix.py lines 1501–1524).  When the label is missing from
`movie_to_encoded` the function prints a message and returns `None`;
otherwise it proceeds to the model-scoring path, whose printed lines are
abstracted as the parameter `hitPrinted` (the claims settled here concern
only the miss path). -/
def recommend_movies_based_on_title (movie_label : String)
    (movie_to_encoded : List (String × Nat)) (hitPrinted : List String) : CollabCall :=
  if (movie_to_encoded.lookup movie_label).isNone then
    ⟨["Film dengan label \x27" ++ movie_label ++ "\x27 tidak ditemukan."], none⟩
  else ⟨hitPrinted, none⟩

/-! ## TF-IDF and cosine similarity, src/terapanfix.py lines 1069–1073

`tfidf_matrix = TfidfVectorizer().fit_transform(content_based_data["content_features"])`
and `cosine_sim = cosine_similarity(tfidf_matrix, tfidf_matrix)`.
All helper definitions are parametrized by the tokenizer so that the
source pipeline (sklearn tokenizer) and the spec-modelled pipeline
(whitespace tokenizer) share the same arithmetic. -/

/-- Term frequency: raw count of token `t` in document `d` of the corpus. -/
def tfCount (tok : String → List String) (corpus : List String) (d : Nat) (t : String) : Nat :=
  (tok (corpus.getD d "")).count t

/-- Document frequency: number of corpus documents containing token `t`. -/
def docFreq (tok : String → List String) (corpus : List String) (t : String) : Nat :=
  (corpus.filter (fun s => decide (t ∈ tok s))).length

/-- Smooth inverse document frequency, the sklearn default:
`log((1+N)/(1+df)) + 1`. -/
noncomputable def idfWeight (tok : String → List String) (corpus : List String) (t : String) : ℝ :=
  Real.log ((1 + (corpus.length : ℝ)) / (1 + (docFreq tok corpus t : ℝ))) + 1

/-- Unnormalized TF-IDF weight: `tf * idf`. -/
noncomputable def rawWeight (tok : String → List String) (corpus : List String) (d : Nat)
    (t : String) : ℝ :=
  (tfCount tok corpus d t : ℝ) * idfWeight tok corpus t

/-- The vocabulary: all distinct tokens of the corpus (sklearn sorts it
alphabetically; order does not affect any sum below, so first-seen order
is used). -/
def vocabulary (tok : String → List String) (corpus : List String) : List String :=
  pdUnique (corpus.map tok).flatten

/-- Squared L2 norm of a document's unnormalized TF-IDF row. -/
noncomputable def rowNormSq (tok : String → List String) (corpus : List String) (d : Nat) : ℝ :=
  ∑ i ∈ Finset.range (vocabulary tok corpus).length,
    (rawWeight tok corpus d ((vocabulary tok corpus).getD i "")) ^ 2

/-- L2-normalized TF-IDF weight: entry (`d`, `t`) of the TF-IDF matrix. -/
noncomputable def tfidfWeight (tok : String → List String) (corpus : List String) (d : Nat)
    (t : String) : ℝ :=
  rawWeight tok corpus d t / Real.sqrt (rowNormSq tok corpus d)

/-- Entry of the notebook's `tfidf_matrix` at (document `d`, term `t`),
with sklearn's default tokenizer. -/
noncomputable def tfidf_matrix (corpus : List String) (d : Nat) (t : String) : ℝ :=
  tfidfWeight tokenize corpus d t

/-- Modelled from the spec: the same TF-IDF formula but with the
whitespace tokenization the spec describes (genre names and the
stringified title length as single opaque tokens). -/
noncomputable def spec_tfidf_matrix (corpus : List String) (d : Nat) (t : String) : ℝ :=
  tfidfWeight spec_tokenize corpus d t

/-- Dot product of the normalized TF-IDF rows of documents `i` and `j`. -/
noncomputable def docDot (tok : String → List String) (corpus : List String) (i j : Nat) : ℝ :=
  ∑ n ∈ Finset.range (vocabulary tok corpus).length,
    tfidfWeight tok corpus i ((vocabulary tok corpus).getD n "") *
      tfidfWeight tok corpus j ((vocabulary tok corpus).getD n "")

/-- Entry (`i`, `j`) of `cosine_sim = cosine_similarity(tfidf_matrix, tfidf_matrix)`:
the dot product of the two TF-IDF rows divided by the product of their
L2 norms. -/
noncomputable def cosine_sim (corpus : List String) (i j : Nat) : ℝ :=
  docDot tokenize corpus i j /
    (Real.sqrt (docDot tokenize corpus i i) * Real.sqrt (docDot tokenize corpus j j))

theorem docFreq_le_length (tok : String → List String) (corpus : List String) (t : String) :
    docFreq tok corpus t ≤ corpus.length :=
  List.length_filter_le _ _

theorem one_le_idfWeight (tok : String → List String) (corpus : List String) (t : String) :
    1 ≤ idfWeight tok corpus t := by
  have hlog : 0 ≤ Real.log ((1 + (corpus.length : ℝ)) / (1 + (docFreq tok corpus t : ℝ))) := by
    apply Real.log_nonneg
    rw [le_div_iff₀ (by positivity)]
    have := docFreq_le_length tok corpus t
    have h2 : (docFreq tok corpus t : ℝ) ≤ (corpus.length : ℝ) := by exact_mod_cast this
    linarith
  unfold idfWeight
  linarith

theorem rawWeight_nonneg (tok : String → List String) (corpus : List String) (d : Nat)
    (t : String) : 0 ≤ rawWeight tok corpus d t := by
  unfold rawWeight
  have h1 := one_le_idfWeight tok corpus t
  positivity

theorem tfidfWeight_nonneg (tok : String → List String) (corpus : List String) (d : Nat)
    (t : String) : 0 ≤ tfidfWeight tok corpus d t := by
  unfold tfidfWeight
  exact div_nonneg (rawWeight_nonneg tok corpus d t) (Real.sqrt_nonneg _)

theorem rowNormSq_nonneg (tok : String → List String) (corpus : List String) (d : Nat) :
    0 ≤ rowNormSq tok corpus d :=
  Finset.sum_nonneg fun _ _ => sq_nonneg _

theorem rowNormSq_pos (tok : String → List String) (corpus : List String) (d : Nat)
    (hd : d < corpus.length) (hne : tok (corpus.getD d "") ≠ []) :
    0 < rowNormSq tok corpus d := by
  obtain ⟨t0, ts, hts⟩ := List.exists_cons_of_ne_nil hne
  have ht0 : t0 ∈ tok (corpus.getD d "") := by rw [hts]; exact List.mem_cons_self _ _
  have hvoc : t0 ∈ vocabulary tok corpus := by
    rw [vocabulary, mem_pdUnique]
    refine List.mem_flatten.mpr ⟨tok (corpus.getD d ""), ?_, ht0⟩
    refine List.mem_map.mpr ⟨corpus.getD d "", ?_, rfl⟩
    rw [List.getD_eq_getElem _ _ hd]
    exact List.getElem_mem hd
  obtain ⟨n, hget⟩ := List.mem_iff_get.mp hvoc
  refine Finset.sum_pos' (fun i _ => sq_nonneg _) ⟨n.1, Finset.mem_range.mpr n.2, ?_⟩
  have hgd : (vocabulary tok corpus).getD n.1 "" = t0 := by
    rw [List.getD_eq_getElem _ _ n.2]
    simpa [List.get_eq_getElem] using hget
  rw [hgd]
  have htf : 0 < (tfCount tok corpus d t0 : ℝ) := by
    have : 0 < tfCount tok corpus d t0 := List.count_pos_iff.mpr ht0
    exact_mod_cast this
  have hidf : (0 : ℝ) < idfWeight tok corpus t0 :=
    lt_of_lt_of_le one_pos (one_le_idfWeight tok corpus t0)
  have : 0 < rawWeight tok corpus d t0 := mul_pos htf hidf
  positivity

theorem docDot_self (tok : String → List String) (corpus : List String) (d : Nat)
    (hd : d < corpus.length) (hne : tok (corpus.getD d "") ≠ []) :
    docDot tok corpus d d = 1 := by
  have hR := rowNormSq_pos tok corpus d hd hne
  have hsqrt : Real.sqrt (rowNormSq tok corpus d) * Real.sqrt (rowNormSq tok corpus d)
      = rowNormSq tok corpus d := Real.mul_self_sqrt (le_of_lt hR)
  have hstep : docDot tok corpus d d
      = (∑ n ∈ Finset.range (vocabulary tok corpus).length,
          (rawWeight tok corpus d ((vocabulary tok corpus).getD n "")) ^ 2)
        / rowNormSq tok corpus d := by
    rw [docDot, Finset.sum_div]
    refine Finset.sum_congr rfl fun n _ => ?_
    rw [tfidfWeight, div_mul_div_comm, hsqrt, sq]
  rw [hstep, ← rowNormSq, div_self (ne_of_gt hR)]

theorem docDot_comm (tok : String → List String) (corpus : List String) (i j : Nat) :
    docDot tok corpus i j = docDot tok corpus j i := by
  unfold docDot
  exact Finset.sum_congr rfl fun n _ => mul_comm _ _

theorem docDot_nonneg (tok : String → List String) (corpus : List String) (i j : Nat) :
    0 ≤ docDot tok corpus i j :=
  Finset.sum_nonneg fun _ _ =>
    mul_nonneg (tfidfWeight_nonneg tok corpus i _) (tfidfWeight_nonneg tok corpus j _)

theorem docDot_le_sqrt_mul_sqrt (tok : String → List String) (corpus : List String) (i j : Nat) :
    docDot tok corpus i j
      ≤ Real.sqrt (docDot tok corpus i i) * Real.sqrt (docDot tok corpus j j) := by
  have hii : docDot tok corpus i i
      = ∑ n ∈ Finset.range (vocabulary tok corpus).length,
          (tfidfWeight tok corpus i ((vocabulary tok corpus).getD n "")) ^ 2 :=
    Finset.sum_congr rfl fun n _ => (sq _).symm
  have hjj : docDot tok corpus j j
      = ∑ n ∈ Finset.range (vocabulary tok corpus).length,
          (tfidfWeight tok corpus j ((vocabulary tok corpus).getD n "")) ^ 2 :=
    Finset.sum_congr rfl fun n _ => (sq _).symm
  rw [hii, hjj]
  exact Real.sum_mul_le_sqrt_mul_sqrt _ _ _

/-! ## RecommenderNet, src/terapanfix.py lines 1312–1349 -/

/-- Parameter state of `RecommenderNet`: two embedding tables of width
`embedding_size` and two scalar bias tables, one per id space. -/
structure RecommenderNet where
  num_track : Nat
  num_name : Nat
  embedding_size : Nat
  track_embedding : Fin num_track → Fin embedding_size → ℝ
  name_embedding : Fin num_name → Fin embedding_size → ℝ
  track_bias : Fin num_track → ℝ
  name_bias : Fin num_name → ℝ

/-- Logistic sigmoid, `tf.nn.sigmoid`. -/
noncomputable def sigmoid (x : ℝ) : ℝ := 1 / (1 + Real.exp (-x))

/-- Embedding of `RecommenderNet.call` (src/terapanfix.py lines 1338–1349)
on one input pair.  `mask` abstracts the stochastic rescaling the Dropout
layer applies to its input; Keras applies it only when the training flag
is set, and the identity otherwise. -/
noncomputable def RecommenderNet.call (net : RecommenderNet) (mask : ℝ → ℝ)
    (training : Bool) (t : Fin net.num_track) (n : Fin net.num_name) : ℝ :=
  let track_vector := net.track_embedding t
  let name_vector := net.name_embedding n
  let dot_track_name := ∑ j, track_vector j * name_vector j
  let x := dot_track_name + net.track_bias t + net.name_bias n
  let x := if training then mask x else x
  sigmoid x

/-- Modelled from the spec: `score(track_id, name_id) =
sigmoid(dot(E_track[track_id], E_name[name_id]) + b_track[track_id] + b_name[name_id])`. -/
noncomputable def spec_score (net : RecommenderNet) (t : Fin net.num_track)
    (n : Fin net.num_name) : ℝ :=
  sigmoid ((∑ j, net.track_embedding t j * net.name_embedding n j)
    + net.track_bias t + net.name_bias n)

/-! ## Interaction encoder, src/terapanfix.py lines 727 and 765–827 -/

/-- Row of `dataset_filter` as far as the id mappings are concerned:
`title` (used to derive `film_id`) and the composite `movie_label`. -/
structure FilterRow where
  title : String
  movie_label : String
deriving DecidableEq, Repr

/-- `dataset_filter['film_id'] = dataset_filter['title'].apply(lambda x: x.split()[0][:3].upper()) + dataset_filter.index.astype(str)`
(src/terapanfix.py line 727): the first three characters of the title's
first word, uppercased, followed by the row index. -/
def film_id_of (title : String) (idx : Nat) : String :=
  String.mk (((charRuns (fun c => c ≠ ' ') title.data).headD []).take 3 |>.map Char.toUpper)
    ++ toString idx

/-- The derived `film_id` column, in row order. -/
def film_id_column (rows : List FilterRow) : List String :=
  rows.enum.map (fun p => film_id_of p.2.title p.1)

/-- `film_ids = dataset_filter["film_id"].unique().tolist()`
(src/terapanfix.py line 765). -/
def film_ids (rows : List FilterRow) : List String :=
  pdUnique (film_id_column rows)

/-- `movie_labels = dataset_filter["movie_label"].unique().tolist()`
(src/terapanfix.py line 820). -/
def movie_labels (rows : List FilterRow) : List String :=
  pdUnique (rows.map (fun r => r.movie_label))

/-- `film_to_film_encoded = {x: i for i, x in enumerate(film_ids)}`. -/
def film_to_film_encoded (rows : List FilterRow) (x : String) : Option Nat :=
  encodeDict (film_ids rows) x

/-- `film_encoded_to_film = {i: x for i, x in enumerate(film_ids)}`. -/
def film_encoded_to_film (rows : List FilterRow) (i : Nat) : Option String :=
  decodeDict (film_ids rows) i

/-- `movie_to_encoded = {x: i for i, x in enumerate(movie_labels)}`. -/
def movie_to_encoded (rows : List FilterRow) (x : String) : Option Nat :=
  encodeDict (movie_labels rows) x

/-- `encoded_to_movie = {i: x for i, x in enumerate(movie_labels)}`. -/
def encoded_to_movie (rows : List FilterRow) (i : Nat) : Option String :=
  decodeDict (movie_labels rows) i

/-- `num_track = len(film_to_film_encoded)` (src/terapanfix.py line 931,
preceding block): the number of distinct `film_id` values. -/
def num_track (rows : List FilterRow) : Nat := (film_ids rows).length

/-- `num_name = len(encoded_to_movie)`: the number of distinct
`movie_label` values. -/
def num_name (rows : List FilterRow) : Nat := (movie_labels rows).length

/-! ## Sorting lemmas for the recommendation query -/

theorem sort_values_desc_perm (col : List (String × ℚ)) :
    List.Perm (sort_values_desc col) col :=
  List.perm_insertionSort simGe col

theorem sort_values_desc_sorted (col : List (String × ℚ)) :
    List.Sorted simGe (sort_values_desc col) :=
  List.sorted_insertionSort simGe col

/-- When an entry has strictly greater value than every other entry of the
column, sorting puts it first and the tail is a permutation of the rest. -/
theorem sort_values_desc_strict_max (col : List (String × ℚ)) (x : String × ℚ)
    (hx : x ∈ col) (hmax : ∀ b ∈ col, b ≠ x → b.2 < x.2) :
    ∃ rest, sort_values_desc col = x :: rest ∧ List.Perm (x :: rest) col := by
  have hperm := sort_values_desc_perm col
  have hsorted := sort_values_desc_sorted col
  rcases hs : sort_values_desc col with _ | ⟨a, rest⟩
  · rw [hs] at hperm
    exact absurd (hperm.symm.subset hx) (List.not_mem_nil x)
  · rw [hs] at hperm hsorted
    have ha : a ∈ col := hperm.subset (List.mem_cons_self a rest)
    have hxa : a = x := by
      by_contra hne
      have hxm : x ∈ a :: rest := hperm.symm.subset hx
      rcases List.mem_cons.mp hxm with rfl | hxrest
      · exact hne rfl
      · have h1 : simGe a x := List.rel_of_sorted_cons hsorted x hxrest
        have h2 : a.2 < x.2 := hmax a ha hne
        exact absurd (h1 : x.2 ≤ a.2) (not_le_of_lt h2)
    subst hxa
    exact ⟨rest, rfl, hperm⟩

/-- Filtering a nodup-labelled catalog by membership of the label in a
nodup list of present labels yields a row list whose labels are a
permutation of that list. -/
theorem filter_label_mem_perm (items : List ContentRow) (S : List String)
    (hnd : (items.map (fun r => r.movie_label)).Nodup) (hS : S.Nodup)
    (hsub : ∀ s ∈ S, s ∈ items.map (fun r => r.movie_label)) :
    List.Perm ((items.filter (fun r => decide (r.movie_label ∈ S))).map (fun r => r.movie_label)) S := by
  rw [map_filter_comp (fun r => r.movie_label) (fun s => decide (s ∈ S)) items]
  refine (List.perm_ext_iff_of_nodup (hnd.filter _) hS).mpr fun a => ?_
  rw [List.mem_filter]
  simp only [decide_eq_true_eq]
  exact ⟨fun h => h.2, fun h => ⟨hsub a h, h⟩⟩

/-! ## Claim C5 -/

/-- C5: for every pair of valid indices, the inference-time (training flag
off) score of `RecommenderNet.call` equals
`sigmoid(dot(E_track[t], E_name[n]) + b_track[t] + b_name[n])`, and the
dropout mask has no effect on the inference-time score. -/
theorem recommenderNet_inference_score (net : RecommenderNet) (mask mask' : ℝ → ℝ)
    (t : Fin net.num_track) (n : Fin net.num_name) :
    net.call mask false t n = spec_score net t n ∧
    net.call mask false t n = net.call mask' false t n := by
  constructor <;> simp [RecommenderNet.call, spec_score]

/-! ## Claim C6 -/

/-- C6: on a rating table with a single distinct value (all ratings 4.0)
the notebook's normalization `(x - min) / (max - min)` runs with
`min = max` and produces values anyway (the float code emits NaN from
0/0; over `ℚ` the junk value is 0) — no `DegenerateInput` failure exists
anywhere in the pipeline, whose type is total. -/
theorem normalize_degenerate_silent :
    min_popularity [4, 4] = max_popularity [4, 4] ∧
    yVector [4, 4] = [0, 0] := by
  have hmin : min_popularity [4, 4] = 4 := by simp [min_popularity]
  have hmax : max_popularity [4, 4] = 4 := by simp [max_popularity]
  refine ⟨hmin.trans hmax.symm, ?_⟩
  simp [yVector, normalizeRating, hmin, hmax]

/-! ## Claim C8 -/

/-- C8: `dataset_content` attaches the rating of the movie's first rating
row, not the mean of its ratings.  With two ratings 3 and 5 for movie 1,
the produced record carries 3 while the mean is 4; a movie with no rating
rows would be dropped entirely by the inner merge. -/
theorem dataset_content_first_rating_not_mean :
    dataset_content [⟨1, 1, 3, 10⟩, ⟨2, 1, 5, 20⟩] [⟨1, "A", "Drama"⟩]
      = [⟨1, "A", "Drama", 3⟩] ∧
    meanRating [⟨1, 1, 3, 10⟩, ⟨2, 1, 5, 20⟩] 1 = 4 := by
  constructor
  · decide
  · show ((3 : ℚ) + (5 + 0)) / 2 = 4
    norm_num

/-! ## Claim C9 -/

/-- C9: round-trip of the entity index — for every `film_id` in the
`film_ids` list, encoding with `film_to_film_encoded` and decoding with
`film_encoded_to_film` returns the original id, and likewise for every
label through `movie_to_encoded` / `encoded_to_movie`. -/
theorem entity_index_round_trip (rows : List FilterRow) (x y : String)
    (hx : x ∈ film_ids rows) (hy : y ∈ movie_labels rows) :
    (∃ i, film_to_film_encoded rows x = some i ∧ film_encoded_to_film rows i = some x) ∧
    (∃ j, movie_to_encoded rows y = some j ∧ encoded_to_movie rows j = some y) :=
  ⟨encodeDict_decodeDict (nodup_pdUnique _) hx,
   encodeDict_decodeDict (nodup_pdUnique _) hy⟩

/-- Witness for C9 at a concrete one-row catalog. -/
theorem entity_index_round_trip_witness :
    (∃ i, film_to_film_encoded [⟨"Toy Story (1995)", "L"⟩] "TOY0" = some i ∧
        film_encoded_to_film [⟨"Toy Story (1995)", "L"⟩] i = some "TOY0") ∧
    (∃ j, movie_to_encoded [⟨"Toy Story (1995)", "L"⟩] "L" = some j ∧
        encoded_to_movie [⟨"Toy Story (1995)", "L"⟩] j = some "L") :=
  entity_index_round_trip [⟨"Toy Story (1995)", "L"⟩] "TOY0" "L" (by decide) (by decide)

/-! ## Claim C7 -/

/-- Formalization of C7 as stated: on a miss, the content query does not
return a message string (its result is never the `message` constructor)
and the latent-factor query does not surface the condition by printing
(it prints nothing). -/
def C7Statement : Prop :=
  (∀ (title : String) (similarity_data : String → List (String × ℚ))
      (items : List ContentRow) (k : Nat),
      (∀ m ∈ items, ¬ strLower m.title = strLower title) →
      ∀ s, content_based_movie_recommendations title similarity_data items k ≠ .message s) ∧
  (∀ (movie_label : String) (enc : List (String × Nat)) (hitPrinted : List String),
      enc.lookup movie_label = none →
      (recommend_movies_based_on_title movie_label enc hitPrinted).printed = [])

/-- C7 counterexample: querying an absent title returns exactly a message
string, so the miss is not surfaced as a typed failure value. -/
theorem notfound_counterexample : ¬ C7Statement := by
  intro h
  exact h.1 "Zootopia" (fun _ => []) [] 10 (by simp)
    ("Judul \x27Zootopia\x27 tidak ditemukan dalam dataset.") rfl

/-- C7 amended: on a miss the content query returns the message string
"Judul '<title>' tidak ditemukan dalam dataset." (not a typed failure),
and the latent-factor query prints
"Film dengan label '<label>' tidak ditemukan." and returns `None`. -/
theorem notfound_message_behaviour (title : String)
    (similarity_data : String → List (String × ℚ)) (items : List ContentRow) (k : Nat)
    (hmiss : ∀ m ∈ items, ¬ strLower m.title = strLower title)
    (movie_label : String) (enc : List (String × Nat)) (hitPrinted : List String)
    (hmiss2 : enc.lookup movie_label = none) :
    content_based_movie_recommendations title similarity_data items k
      = .message ("Judul \x27" ++ title ++ "\x27 tidak ditemukan dalam dataset.") ∧
    recommend_movies_based_on_title movie_label enc hitPrinted
      = ⟨["Film dengan label \x27" ++ movie_label ++ "\x27 tidak ditemukan."], none⟩ := by
  constructor
  · have hf : items.filter (fun m => decide (strLower m.title = strLower title)) = [] :=
      List.filter_eq_nil_iff.mpr (fun m hm => by simpa using hmiss m hm)
    simp only [content_based_movie_recommendations, hf]
  · simp [recommend_movies_based_on_title, hmiss2]

/-- Witness for C7's amended theorem at concrete misses. -/
theorem notfound_message_behaviour_witness :
    content_based_movie_recommendations "X" (fun _ => []) [] 10
      = .message ("Judul \x27" ++ "X" ++ "\x27 tidak ditemukan dalam dataset.") ∧
    recommend_movies_based_on_title "Y" [] []
      = ⟨["Film dengan label \x27" ++ "Y" ++ "\x27 tidak ditemukan."], none⟩ :=
  notfound_message_behaviour "X" (fun _ => []) [] 10 (by simp) "Y" [] [] rfl

/-! ## Claim C3 -/

/-- C3: the cosine similarity matrix over the TF-IDF vectors (defined for
all pairs of document indices below the corpus length, hence square) is
symmetric, has diagonal exactly 1, and every entry lies in [0, 1].  The
hypothesis asks each feature string to produce at least one token, which
holds for every movie row (the genre tokens are always present). -/
theorem cosine_sim_matrix_props (corpus : List String)
    (hne : ∀ s ∈ corpus, tokenize s ≠ []) (i j : Nat)
    (hi : i < corpus.length) (hj : j < corpus.length) :
    cosine_sim corpus i j = cosine_sim corpus j i ∧
    cosine_sim corpus i i = 1 ∧
    0 ≤ cosine_sim corpus i j ∧ cosine_sim corpus i j ≤ 1 := by
  have hti : tokenize (corpus.getD i "") ≠ [] := by
    apply hne
    rw [List.getD_eq_getElem _ _ hi]
    exact List.getElem_mem hi
  have htj : tokenize (corpus.getD j "") ≠ [] := by
    apply hne
    rw [List.getD_eq_getElem _ _ hj]
    exact List.getElem_mem hj
  have hii : docDot tokenize corpus i i = 1 := docDot_self tokenize corpus i hi hti
  have hjj : docDot tokenize corpus j j = 1 := docDot_self tokenize corpus j hj htj
  refine ⟨?_, ?_, ?_, ?_⟩
  · rw [cosine_sim, cosine_sim, docDot_comm tokenize corpus i j, mul_comm]
  · rw [cosine_sim, hii]
    simp [Real.sqrt_one]
  · exact div_nonneg (docDot_nonneg _ _ _ _)
      (mul_nonneg (Real.sqrt_nonneg _) (Real.sqrt_nonneg _))
  · have hcs := docDot_le_sqrt_mul_sqrt tokenize corpus i j
    rw [hii, hjj, Real.sqrt_one, mul_one] at hcs
    rw [cosine_sim, hii, hjj, Real.sqrt_one, mul_one, div_one]
    exact hcs

/-- Witness for C3 at a concrete one-document corpus. -/
theorem cosine_sim_matrix_props_witness : cosine_sim ["ab"] 0 0 = 1 :=
  (cosine_sim_matrix_props ["ab"] (by decide) 0 0 (by decide) (by decide)).2.1

/-! ## Claims C1 and C2 -/

/-- The labels taken from sorted positions 1..k are distinct and all
present in the catalog, whenever the similarity column is indexed by the
catalog's (distinct) labels. -/
theorem top_indices_nodup_and_sub (items : List ContentRow) (col : List (String × ℚ))
    (k : Nat) (hidx : col.map Prod.fst = items.map (fun r => r.movie_label))
    (hnd : (items.map (fun r => r.movie_label)).Nodup) :
    (top_indices col k).Nodup ∧
    ∀ s ∈ top_indices col k, s ∈ items.map (fun r => r.movie_label) := by
  have hperm : List.Perm ((sort_values_desc col).map Prod.fst)
      (items.map fun r => r.movie_label) := by
    rw [← hidx]
    exact (sort_values_desc_perm col).map Prod.fst
  have hnds : ((sort_values_desc col).map Prod.fst).Nodup := hperm.nodup_iff.mpr hnd
  have hSsub : List.Sublist (top_indices col k) ((sort_values_desc col).map Prod.fst) := by
    rw [top_indices]
    exact (((List.take_sublist _ _).trans (List.drop_sublist _ _)).map Prod.fst)
  exact ⟨hnds.sublist hSsub, fun s hs => hperm.subset (hSsub.subset hs)⟩

/-- Formalization of C1 as stated: for a matched title, the returned rows
are, in order, the movies at positions 1..k of the similarity column
sorted by descending value (ties in catalog order). -/
def C1Statement : Prop :=
  ∀ (items : List ContentRow) (similarity_data : String → List (String × ℚ))
    (title : String) (k : Nat) (m : ContentRow) (ms : List ContentRow),
    items.filter (fun r => decide (strLower r.title = strLower title)) = m :: ms →
    (similarity_data m.movie_label).map Prod.fst = items.map (fun r => r.movie_label) →
    ∃ rows, content_based_movie_recommendations title similarity_data items k = .results rows ∧
      rows.map (fun r => r.movie_label) = top_indices (similarity_data m.movie_label) k

/-- C1 counterexample: with three movies where the query movie A is
identical to C (similarity 1) and disjoint from B (similarity 0), the
ranked order of the top 2 is [C, B], but the function returns the rows in
catalog order [B, C], because `isin` filtering keeps the catalog order. -/
theorem content_rec_ranked_order_counterexample : ¬ C1Statement := by
  intro h
  obtain ⟨rows, hrec, hlab⟩ := h
    [⟨"a", "A", "x 2"⟩, ⟨"b", "B", "y 3"⟩, ⟨"c", "C", "x 2"⟩]
    (fun l => if l = "A" then [("A", 1), ("B", 0), ("C", 1)] else [])
    "a" 2 ⟨"a", "A", "x 2"⟩ [] (by decide) (by decide)
  have hval : content_based_movie_recommendations "a"
      (fun l => if l = "A" then [("A", 1), ("B", 0), ("C", 1)] else [])
      [⟨"a", "A", "x 2"⟩, ⟨"b", "B", "y 3"⟩, ⟨"c", "C", "x 2"⟩] 2
      = .results [⟨"b", "B", "y 3"⟩, ⟨"c", "C", "x 2"⟩] := by decide
  rw [hval] at hrec
  injection hrec with hrows
  rw [← hrows] at hlab
  exact absurd hlab (by decide)

/-- C1 amended: the returned rows are exactly the catalog rows whose
labels are the top-k of the descending-similarity ranking (position 0
dropped, ties in catalog order), but they come back in original catalog
order (a sublist of the catalog), not in ranked order; as a set the
result is a permutation of the ranked top-k. -/
theorem content_rec_catalog_order (items : List ContentRow)
    (similarity_data : String → List (String × ℚ)) (title : String) (k : Nat)
    (m : ContentRow) (ms : List ContentRow)
    (hmatch : items.filter (fun r => decide (strLower r.title = strLower title)) = m :: ms)
    (hidx : (similarity_data m.movie_label).map Prod.fst
      = items.map (fun r => r.movie_label))
    (hnd : (items.map (fun r => r.movie_label)).Nodup) :
    ∃ rows, content_based_movie_recommendations title similarity_data items k = .results rows ∧
      rows.Sublist items ∧
      List.Perm (rows.map (fun r => r.movie_label))
        (top_indices (similarity_data m.movie_label) k) := by
  obtain ⟨hSnd, hSin⟩ := top_indices_nodup_and_sub items (similarity_data m.movie_label) k hidx hnd
  refine ⟨items.filter
      (fun r => decide (r.movie_label ∈ top_indices (similarity_data m.movie_label) k)),
    ?_, List.filter_sublist _, ?_⟩
  · simp only [content_based_movie_recommendations, hmatch]
  · exact filter_label_mem_perm items _ hnd hSnd hSin

/-- Witness for C1's amended theorem at the counterexample catalog. -/
theorem content_rec_catalog_order_witness :
    ∃ rows, content_based_movie_recommendations "a"
        (fun l => if l = "A" then [("A", 1), ("B", 0), ("C", 1)] else [])
        [⟨"a", "A", "x 2"⟩, ⟨"b", "B", "y 3"⟩, ⟨"c", "C", "x 2"⟩] 2 = .results rows ∧
      rows.Sublist [⟨"a", "A", "x 2"⟩, ⟨"b", "B", "y 3"⟩, ⟨"c", "C", "x 2"⟩] ∧
      List.Perm (rows.map (fun r => r.movie_label))
        (top_indices [("A", 1), ("B", 0), ("C", 1)] 2) :=
  content_rec_catalog_order
    [⟨"a", "A", "x 2"⟩, ⟨"b", "B", "y 3"⟩, ⟨"c", "C", "x 2"⟩]
    (fun l => if l = "A" then [("A", 1), ("B", 0), ("C", 1)] else [])
    "a" 2 ⟨"a", "A", "x 2"⟩ [] (by decide) (by decide) (by decide)

/-- Formalization of C2 as stated: for a matched title, the query movie
never appears among the returned rows, and the result has exactly `k`
rows when `k < |catalog| - 1` and fewer than `k` rows otherwise. -/
def C2Statement : Prop :=
  ∀ (items : List ContentRow) (similarity_data : String → List (String × ℚ))
    (title : String) (k : Nat) (m : ContentRow) (ms : List ContentRow),
    items.filter (fun r => decide (strLower r.title = strLower title)) = m :: ms →
    (similarity_data m.movie_label).map Prod.fst = items.map (fun r => r.movie_label) →
    ∃ rows, content_based_movie_recommendations title similarity_data items k = .results rows ∧
      (∀ r ∈ rows, r.movie_label ≠ m.movie_label) ∧
      (k < items.length - 1 → rows.length = k) ∧
      (¬ k < items.length - 1 → rows.length < k)

/-- C2 counterexample: two movies with identical content features (cosine
similarity 1).  Querying the second movie with k = 1, the stable
descending sort leaves the identical first-catalog movie at position 0,
so dropping position 0 keeps the query movie itself: the result is the
query movie — and it has exactly k = |catalog| - 1 rows where the claim
demands fewer than k. -/
theorem content_rec_query_included_counterexample : ¬ C2Statement := by
  intro h
  obtain ⟨rows, hrec, hnq, _, hge⟩ := h
    [⟨"a", "A", "x 2"⟩, ⟨"b", "B", "x 2"⟩]
    (fun l => if l = "B" then [("A", 1), ("B", 1)] else [])
    "b" 1 ⟨"b", "B", "x 2"⟩ [] (by decide) (by decide)
  have hval : content_based_movie_recommendations "b"
      (fun l => if l = "B" then [("A", 1), ("B", 1)] else [])
      [⟨"a", "A", "x 2"⟩, ⟨"b", "B", "x 2"⟩] 1
      = .results [⟨"b", "B", "x 2"⟩] := by decide
  rw [hval] at hrec
  injection hrec with hrows
  rw [← hrows] at hnq
  exact hnq ⟨"b", "B", "x 2"⟩ (List.mem_singleton_self _) rfl

/-- C2 amended: when the query movie is the unique maximizer of its own
similarity column (no other movie ties its self-similarity 1.0) and
labels are distinct, the query movie is excluded from the result and the
result has exactly `min k (|catalog| - 1)` rows — in particular exactly
`k` rows for every `k ≤ |catalog| - 1`, fewer only beyond that. -/
theorem content_rec_excludes_query (items : List ContentRow)
    (similarity_data : String → List (String × ℚ)) (title : String) (k : Nat)
    (m : ContentRow) (ms : List ContentRow) (v : ℚ)
    (hmatch : items.filter (fun r => decide (strLower r.title = strLower title)) = m :: ms)
    (hidx : (similarity_data m.movie_label).map Prod.fst
      = items.map (fun r => r.movie_label))
    (hnd : (items.map (fun r => r.movie_label)).Nodup)
    (hv : (m.movie_label, v) ∈ similarity_data m.movie_label)
    (hmax : ∀ p ∈ similarity_data m.movie_label, p ≠ (m.movie_label, v) → p.2 < v) :
    ∃ rows, content_based_movie_recommendations title similarity_data items k = .results rows ∧
      (∀ r ∈ rows, r.movie_label ≠ m.movie_label) ∧
      rows.length = min k (items.length - 1) := by
  obtain ⟨rest, hsor, hperm⟩ :=
    sort_values_desc_strict_max (similarity_data m.movie_label) (m.movie_label, v) hv hmax
  have hlen_col : (similarity_data m.movie_label).length = items.length := by
    have h1 := congrArg List.length hidx
    simpa using h1
  have hlen_rest : rest.length = items.length - 1 := by
    have h1 := hperm.length_eq
    simp only [List.length_cons] at h1
    omega
  have htop : top_indices (similarity_data m.movie_label) k = (rest.take k).map Prod.fst := by
    rw [top_indices, hsor]
    rfl
  have hndcol_fst : ((similarity_data m.movie_label).map Prod.fst).Nodup := by
    rw [hidx]
    exact hnd
  have hndcol : (similarity_data m.movie_label).Nodup := List.Nodup.of_map _ hndcol_fst
  have hndxrest : ((m.movie_label, v) :: rest).Nodup := hperm.nodup_iff.mpr hndcol
  have hq_not : m.movie_label ∉ (rest.take k).map Prod.fst := by
    intro hmem
    obtain ⟨p, hp, hpfst⟩ := List.mem_map.mp hmem
    have hp1 : p ∈ rest := (List.take_sublist k rest).subset hp
    have hpcol : p ∈ similarity_data m.movie_label :=
      hperm.subset (List.mem_cons_of_mem _ hp1)
    have hpne : p ≠ (m.movie_label, v) := by
      intro heq
      exact (List.nodup_cons.mp hndxrest).1 (heq ▸ hp1)
    exact hpne (List.inj_on_of_nodup_map hndcol_fst hpcol hv (by simpa using hpfst))
  obtain ⟨hSnd, hSin⟩ :=
    top_indices_nodup_and_sub items (similarity_data m.movie_label) k hidx hnd
  refine ⟨items.filter (fun r =>
      decide (r.movie_label ∈ top_indices (similarity_data m.movie_label) k)), ?_, ?_, ?_⟩
  · simp only [content_based_movie_recommendations, hmatch]
  · intro r hr heq
    have h2 : r.movie_label ∈ top_indices (similarity_data m.movie_label) k := by
      have h3 := (List.mem_filter.mp hr).2
      simpa using h3
    rw [htop, heq] at h2
    exact hq_not h2
  · have hpl := filter_label_mem_perm items
      (top_indices (similarity_data m.movie_label) k) hnd hSnd hSin
    have h4 : (items.filter (fun r =>
        decide (r.movie_label ∈ top_indices (similarity_data m.movie_label) k))).length
        = (top_indices (similarity_data m.movie_label) k).length := by
      have h5 := hpl.length_eq
      simpa using h5
    rw [h4, htop, List.length_map, List.length_take, hlen_rest]

/-- Witness for C2's amended theorem at a concrete catalog where the
query movie strictly dominates its column. -/
theorem content_rec_excludes_query_witness :
    ∃ rows, content_based_movie_recommendations "a"
        (fun l => if l = "A" then [("A", 1), ("B", 0), ("C", 0)] else [])
        [⟨"a", "A", "x 2"⟩, ⟨"b", "B", "y 3"⟩, ⟨"c", "C", "z 4"⟩] 1 = .results rows ∧
      (∀ r ∈ rows, r.movie_label ≠ "A") ∧
      rows.length = min 1 ([⟨"a", "A", "x 2"⟩, ⟨"b", "B", "y 3"⟩,
        (⟨"c", "C", "z 4"⟩ : ContentRow)].length - 1) :=
  content_rec_excludes_query
    [⟨"a", "A", "x 2"⟩, ⟨"b", "B", "y 3"⟩, ⟨"c", "C", "z 4"⟩]
    (fun l => if l = "A" then [("A", 1), ("B", 0), ("C", 0)] else [])
    "a" 1 ⟨"a", "A", "x 2"⟩ [] 1 (by decide) (by decide) (by decide) (by decide) (by decide)

/-! ## Claim C4 -/

/-- Formalization of C4 as stated: the encoder's output coincides with
the TF-IDF formula computed over whitespace-split tokens (genre names and
the length token as single opaque tokens). -/
def C4Statement : Prop :=
  ∀ (corpus : List String) (d : Nat) (t : String),
    tfidf_matrix corpus d t = spec_tfidf_matrix corpus d t

/-- C4 counterexample: on the corpus ["Sci-Fi 16"] the sklearn default
analyzer lowercases and splits the hyphenated genre, producing tokens
["sci", "fi", "16"], so the weight of term "sci" is positive; under the
spec's whitespace tokenization the tokens are ["Sci-Fi", "16"] and the
weight of "sci" is 0. -/
theorem tfidf_tokenizer_counterexample : ¬ C4Statement := by
  intro h
  have h1 := h ["Sci-Fi 16"] 0 "sci"
  have hspec : spec_tfidf_matrix ["Sci-Fi 16"] 0 "sci" = 0 := by
    rw [spec_tfidf_matrix, tfidfWeight, rawWeight]
    norm_num [show tfCount spec_tokenize ["Sci-Fi 16"] 0 "sci" = 0 from by decide]
  have hpos : 0 < tfidf_matrix ["Sci-Fi 16"] 0 "sci" := by
    rw [tfidf_matrix, tfidfWeight]
    apply div_pos
    · rw [rawWeight]
      apply mul_pos
      · rw [show tfCount tokenize ["Sci-Fi 16"] 0 "sci" = 1 from by decide]
        norm_num
      · exact lt_of_lt_of_le one_pos (one_le_idfWeight _ _ _)
    · exact Real.sqrt_pos.mpr (rowNormSq_pos tokenize ["Sci-Fi 16"] 0 (by decide) (by decide))
  rw [h1, hspec] at hpos
  exact lt_irrefl 0 hpos

/-- C4 amended: the encoder computes exactly
`tf(t, d) * (log((1+N)/(1+df(t))) + 1)`, L2-normalized per document —
but over the sklearn default tokens (lowercased maximal runs of at least
two word characters), not whitespace-split tokens. -/
theorem tfidf_formula (corpus : List String) (d : Nat) (t : String) :
    tfidf_matrix corpus d t
      = ((tokenize (corpus.getD d "")).count t : ℝ)
          * (Real.log ((1 + (corpus.length : ℝ))
              / (1 + ((corpus.filter (fun s => decide (t ∈ tokenize s))).length : ℝ))) + 1)
        / Real.sqrt (∑ i ∈ Finset.range (vocabulary tokenize corpus).length,
            (((tokenize (corpus.getD d "")).count ((vocabulary tokenize corpus).getD i "") : ℝ)
              * (Real.log ((1 + (corpus.length : ℝ))
                  / (1 + ((corpus.filter (fun s =>
                      decide ((vocabulary tokenize corpus).getD i "" ∈ tokenize s))).length
                    : ℝ))) + 1)) ^ 2) := rfl

/-! ## Claim C10 -/

/-- Formalization of C10 as stated: over any normalized catalog (one row
per movie), both id spaces have the same cardinality as the movie set and
each is a bijection onto the contiguous integers below that cardinality. -/
def C10Statement : Prop :=
  ∀ rows : List FilterRow,
    num_track rows = rows.length ∧ num_name rows = rows.length ∧
    (∀ x ∈ film_ids rows, ∃ i, i < num_track rows ∧
      film_to_film_encoded rows x = some i ∧ film_encoded_to_film rows i = some x) ∧
    (∀ y ∈ movie_labels rows, ∃ j, j < num_name rows ∧
      movie_to_encoded rows y = some j ∧ encoded_to_movie rows j = some y)

/-- C10 counterexample: two distinct movies sharing title and genres have
the same composite `movie_label`, so `unique()` collapses them and
`num_name` is 1 while the catalog has 2 movies. -/
theorem entity_index_cardinality_counterexample : ¬ C10Statement := by
  intro h
  have h1 := (h [⟨"A (2000)", "A (2000) (Drama)"⟩, ⟨"A (2000)", "A (2000) (Drama)"⟩]).2.1
  exact absurd h1 (by decide)

/-- C10 amended: for every catalog (colliding keys included), each of the
two mappings is built in first-seen catalog order and is a bijection
between its (duplicate-free) key list and the contiguous integers below
its own cardinality m, where m is the number of distinct values of its
key; the cardinalities equal the movie count exactly when the derived
keys are collision-free (distinct `film_id` strings, distinct
`movie_label`s), which duplicate title+genre pairs violate. -/
theorem entity_index_bijections (rows : List FilterRow) :
    (film_ids rows).Nodup ∧
    List.Sublist (film_ids rows) (film_id_column rows) ∧
    (∀ x, x ∈ film_ids rows ↔ x ∈ film_id_column rows) ∧
    (movie_labels rows).Nodup ∧
    List.Sublist (movie_labels rows) (rows.map (fun r => r.movie_label)) ∧
    (∀ y, y ∈ movie_labels rows ↔ y ∈ rows.map (fun r => r.movie_label)) ∧
    (∀ x ∈ film_ids rows, ∃ i, i < num_track rows ∧
      film_to_film_encoded rows x = some i ∧ film_encoded_to_film rows i = some x) ∧
    (∀ i, i < num_track rows → ∃ x ∈ film_ids rows,
      film_to_film_encoded rows x = some i ∧ film_encoded_to_film rows i = some x) ∧
    (∀ y ∈ movie_labels rows, ∃ j, j < num_name rows ∧
      movie_to_encoded rows y = some j ∧ encoded_to_movie rows j = some y) ∧
    (∀ j, j < num_name rows → ∃ y ∈ movie_labels rows,
      movie_to_encoded rows y = some j ∧ encoded_to_movie rows j = some y) ∧
    (num_track rows = rows.length ↔ (film_id_column rows).Nodup) ∧
    (num_name rows = rows.length ↔ (rows.map (fun r => r.movie_label)).Nodup) := by
  have hflen : (film_id_column rows).length = rows.length := by
    rw [film_id_column, List.length_map, List.enum_length]
  have hcard : ∀ l : List String,
      (pdUnique l).length = l.length ↔ l.Nodup := by
    intro l
    constructor
    · intro hlen
      have heq : pdUnique l = l := (pdUnique_sublist l).eq_of_length hlen
      rw [← heq]
      exact nodup_pdUnique l
    · intro hnd
      rw [pdUnique_eq_self hnd]
  refine ⟨nodup_pdUnique _, pdUnique_sublist _, fun x => mem_pdUnique,
    nodup_pdUnique _, pdUnique_sublist _, fun y => mem_pdUnique,
    ?_, ?_, ?_, ?_, ?_, ?_⟩
  · intro x hx
    obtain ⟨i, hi1, hi2⟩ := encodeDict_decodeDict (nodup_pdUnique _) hx
    exact ⟨i, decodeDict_lt_length hi2, hi1, hi2⟩
  · intro i hi
    refine ⟨(film_ids rows)[i], List.getElem_mem hi,
      encodeDict_getElem (nodup_pdUnique _) hi, ?_⟩
    rw [film_encoded_to_film, decodeDict, List.getElem?_eq_getElem hi]
  · intro y hy
    obtain ⟨j, hj1, hj2⟩ := encodeDict_decodeDict (nodup_pdUnique _) hy
    exact ⟨j, decodeDict_lt_length hj2, hj1, hj2⟩
  · intro j hj
    refine ⟨(movie_labels rows)[j], List.getElem_mem hj,
      encodeDict_getElem (nodup_pdUnique _) hj, ?_⟩
    rw [encoded_to_movie, decodeDict, List.getElem?_eq_getElem hj]
  · rw [← hflen]
    exact hcard (film_id_column rows)
  · rw [← List.length_map rows (fun r => r.movie_label)]
    exact hcard (rows.map (fun r => r.movie_label))

/-- Witness-style corollary for C10's amended theorem, taken at the very
catalog with colliding labels used by the counterexample: the label
mapping is still a bijection onto the integers below `num_name`, and
`num_name` is 1, not the movie count 2. -/
theorem entity_index_bijections_witness :
    (∀ y ∈ movie_labels [⟨"A (2000)", "A (2000) (Drama)"⟩,
        (⟨"A (2000)", "A (2000) (Drama)"⟩ : FilterRow)],
      ∃ j, j < num_name [⟨"A (2000)", "A (2000) (Drama)"⟩,
          (⟨"A (2000)", "A (2000) (Drama)"⟩ : FilterRow)] ∧
        movie_to_encoded [⟨"A (2000)", "A (2000) (Drama)"⟩,
          (⟨"A (2000)", "A (2000) (Drama)"⟩ : FilterRow)] y = some j ∧
        encoded_to_movie [⟨"A (2000)", "A (2000) (Drama)"⟩,
          (⟨"A (2000)", "A (2000) (Drama)"⟩ : FilterRow)] j = some y) ∧
    num_name [⟨"A (2000)", "A (2000) (Drama)"⟩,
      (⟨"A (2000)", "A (2000) (Drama)"⟩ : FilterRow)] = 1 := by
  obtain ⟨-, -, -, -, -, -, -, -, h9, -, -, -⟩ := entity_index_bijections
    [⟨"A (2000)", "A (2000) (Drama)"⟩, ⟨"A (2000)", "A (2000) (Drama)"⟩]
  exact ⟨h9, by decide⟩
